import Mathlib

/-!
Verification of the workflow-orchestrator core of
`davioliveeira/rest_api_automation_hub_go`.

The development shallowly embeds the engine package
(`internal/engine/{context,engine,executor,types}.go` and the registry),
the task executors (`internal/tasks/http_task.go`, the transform task and
the HTML parser task), and the run endpoint's asynchronous dispatch
(`cmd/api/handlers.go`, `handleRunWorkflow`).

Conventions of the embedding:
  * Go `interface{}` values that flow through the execution context and
    task outputs are modelled by the JSON-like type `Value`; consequently
    `encoding/json.Marshal` of such values is total and is modelled by the
    identity (the snapshot/input/output fields keep the `Value`).
  * `uuid.UUID` is modelled by `Nat`; timestamps are omitted (no claim in
    this development mentions them).
  * Go maps used as dictionaries (the execution context, the HTML parser
    result map) are modelled by association lists where the most recent
    write is at the head and lookup takes the first match, which is
    observationally the Go map assignment/lookup behaviour.
  * external libraries (`text/template`, `net/http` transport,
    `goquery`'s CSS matching, `encoding/json` decoding of arbitrary
    strings) are abstracted as explicit function parameters; the code of
    this repository that calls them is embedded faithfully.
-/

namespace AutomationHub

/-- JSON-like runtime values (`interface{}` payloads that the engine moves
between tasks, configs, outputs and snapshots). -/
inductive Value where
  | null
  | bool (b : Bool)
  | int (n : Int)
  | str (s : String)
  | list (items : List Value)
  | obj (fields : List (String × Value))

/-- `internal/engine/context.go`: the per-execution key/value store.
Modelled as an association list; `Set` prepends (newest binding wins),
`Get` returns the first match, exactly the observable behaviour of the
mutex-guarded Go map. -/
abbrev ExecutionContext : Type := List (String × Value)

/-- `ExecutionContext.Set` (context.go line 21): store or overwrite. -/
def ExecutionContext.Set (ctx : ExecutionContext) (key : String) (value : Value) :
    ExecutionContext :=
  (key, value) :: ctx

/-- `ExecutionContext.Get` (context.go line 30): first-match lookup. -/
def ExecutionContext.Get : ExecutionContext → String → Option Value
  | [], _ => none
  | (k, v) :: rest, key => if k = key then some v else ExecutionContext.Get rest key

/-- `internal/engine/types.go`: the outcome of one executor invocation. -/
structure TaskResult where
  status : String
  output : Value
  error : String

/-- Task configs are Go `map[string]interface{}` documents. -/
abbrev Config : Type := List (String × Value)

/-- Go type assertion `config[key].(string)`: `some s` iff the key is
present and holds a string. -/
def Config.getString (c : Config) (key : String) : Option String :=
  match ExecutionContext.Get c key with
  | some (Value.str s) => some s
  | _ => none

/-- `internal/engine/types.go`: one step of a workflow. -/
structure Task where
  id : String
  type : String
  config : Config

/-- `internal/engine/types.go`: a named ordered list of tasks. -/
structure WorkflowDefinition where
  name : String
  tasks : List Task

/-- `internal/engine/executor.go`: the `TaskExecutor` contract. All
executors of this repository only read the context, so an executor is a
function of the context and the config. -/
abbrev TaskExecutor : Type := ExecutionContext → Config → TaskResult

/-- `internal/engine` registry (part_001): task type name → executor. -/
abbrev Registry : Type := List (String × TaskExecutor)

/-- `Registry.Get`: lookup, `none` models the not-registered error. -/
def Registry.Get : Registry → String → Option TaskExecutor
  | [], _ => none
  | (ty, ex) :: rest, key => if ty = key then some ex else Registry.Get rest key

/-- Error text of `Registry.Get` (part_001 line 40) as wrapped by the
runner (`engine.go` lines 81 and 206/209). -/
def executorNotFoundMsg (ty : String) : String :=
  "task executor not found for type \x27" ++ ty ++
    "\x27: no executor registered for task type: " ++ ty

/-- Error text of a failed task as wrapped by the runner
(`engine.go` lines 101 and 241). -/
def taskFailedMsg (id err : String) : String :=
  "task " ++ id ++ " failed: " ++ err

/-- What happened to one attempted task during a run.  One entry is
recorded per loop iteration of either runner (the source emits exactly one
`slog` record and, in the logging runner, one `CreateTaskLog` call per
iteration). -/
inductive TaskOutcome where
  | missingExecutor (id ty : String)
  | failed (id err : String)
  | succeeded (id : String) (output : Value)

/-- The task id an outcome is about. -/
def TaskOutcome.taskId : TaskOutcome → String
  | .missingExecutor id _ => id
  | .failed id _ => id
  | .succeeded id _ => id

/-- Whether the outcome is a success transition. -/
def TaskOutcome.isSuccess : TaskOutcome → Bool
  | .succeeded _ _ => true
  | _ => false

/-- Result of the un-logged sequential runner: final context, the
execution-level error (`none` = success), and the per-iteration trace. -/
structure StepResult where
  ctx : ExecutionContext
  err : Option String
  trace : List TaskOutcome

/-- The task loop of `Engine.Execute` (`engine.go` lines 70-103):
lookup the executor, run it, publish `id + "_result"` on success,
halt with an error on a missing executor or a failed task. -/
def executeTasks (reg : Registry) (ctx : ExecutionContext) :
    List Task → StepResult
  | [] => ⟨ctx, none, []⟩
  | t :: rest =>
    match Registry.Get reg t.type with
    | none => ⟨ctx, some (executorNotFoundMsg t.type), [.missingExecutor t.id t.type]⟩
    | some ex =>
      let r := ex ctx t.config
      if r.status = "success" then
        let s := executeTasks reg (ExecutionContext.Set ctx (t.id ++ "_result") r.output) rest
        ⟨s.ctx, s.err, .succeeded t.id r.output :: s.trace⟩
      else
        ⟨ctx, some (taskFailedMsg t.id r.error), [.failed t.id r.error]⟩

/-- `Engine.Execute` (`engine.go` lines 67-111) started, as in the claims,
from a fresh empty engine context. -/
def Engine.Execute (reg : Registry) (wf : WorkflowDefinition) : StepResult :=
  executeTasks reg [] wf.tasks

/-! ## The logging runner (`Engine.ExecuteWithLogging`, engine.go 122-281) -/

/-- `engine.go` lines 22-29: the execution row handed to the
`ExecutionLogger` port.  `contextSnapshot = none` models the nil
`datatypes.JSON` column; ids are `Nat`, timestamps omitted. -/
structure ExecutionRecord where
  id : Nat
  workflowID : Nat
  status : String
  contextSnapshot : Option ExecutionContext

/-- `engine.go` lines 32-43: the per-task audit row.  `input`/`output`
keep the marshalled config/output (`Value` marshalling is total in this
embedding); `none` models the nil JSON column. -/
structure TaskLogRecord where
  executionID : Nat
  taskID : String
  taskType : String
  status : String
  input : Option Value
  output : Option Value
  error : String

/-- `engine.go` lines 14-19: the persistence port the logging runner
consumes.  Each call returns `none` on success or `some msg` where `msg`
is the store's error text. -/
structure ExecutionLogger where
  CreateExecution : ExecutionRecord → Option String
  UpdateExecution : ExecutionRecord → Option String
  CreateTaskLog : TaskLogRecord → Option String
  UpdateTaskLog : TaskLogRecord → Option String

/-- The durable state behind the port: every record successfully accepted
by the store, in call order.  The record visible through the public
interface for a given id is its latest accepted write. -/
structure LogStore where
  execWrites : List ExecutionRecord
  taskLogWrites : List TaskLogRecord

/-- Append an execution row to the store iff the port call succeeded. -/
def LogStore.putExec (s : LogStore) (callResult : Option String) (r : ExecutionRecord) :
    LogStore :=
  match callResult with
  | none => { s with execWrites := s.execWrites ++ [r] }
  | some _ => s

/-- Append a task-log row to the store iff the port call succeeded. -/
def LogStore.putTaskLog (s : LogStore) (callResult : Option String) (r : TaskLogRecord) :
    LogStore :=
  match callResult with
  | none => { s with taskLogWrites := s.taskLogWrites ++ [r] }
  | some _ => s

/-- Result of the logging-runner loop. -/
structure LoopResult where
  ctx : ExecutionContext
  store : LogStore
  err : Option String
  trace : List TaskOutcome

/-- The task loop of `Engine.ExecuteWithLogging` (`engine.go` lines
170-253): create a running task log (failure swallowed, line 189-192),
look up the executor, execute, update the task log with the outcome
(failure swallowed, line 245-247), publish the result key on success and
break on the first failure. -/
def runTasksLogged (reg : Registry) (logger : ExecutionLogger) (execID : Nat)
    (ctx : ExecutionContext) (store : LogStore) : List Task → LoopResult
  | [] => ⟨ctx, store, none, []⟩
  | t :: rest =>
    let log0 : TaskLogRecord :=
      ⟨execID, t.id, t.type, "running", some (Value.obj t.config), none, ""⟩
    let store1 := store.putTaskLog (logger.CreateTaskLog log0) log0
    match Registry.Get reg t.type with
    | none =>
      let msg := executorNotFoundMsg t.type
      let log1 := { log0 with status := "failed", error := msg }
      let store2 := store1.putTaskLog (logger.UpdateTaskLog log1) log1
      ⟨ctx, store2, some msg, [.missingExecutor t.id t.type]⟩
    | some ex =>
      let r := ex ctx t.config
      if r.status = "success" then
        let ctx1 := ExecutionContext.Set ctx (t.id ++ "_result") r.output
        let log1 := { log0 with status := "success", output := some r.output }
        let store2 := store1.putTaskLog (logger.UpdateTaskLog log1) log1
        let s := runTasksLogged reg logger execID ctx1 store2 rest
        ⟨s.ctx, s.store, s.err, .succeeded t.id r.output :: s.trace⟩
      else
        let log1 := { log0 with status := "failed", error := r.error }
        let store2 := store1.putTaskLog (logger.UpdateTaskLog log1) log1
        ⟨ctx, store2, some (taskFailedMsg t.id r.error), [.failed t.id r.error]⟩

/-- What `Engine.ExecuteWithLogging` hands back: the `*ExecutionRecord`
(`none` models the nil pointer returned when the initial create/update
fails), the returned `error`, the store contents, and — for stating the
claims — the trace and the final engine context. -/
structure RunResult where
  execution : Option ExecutionRecord
  error : Option String
  store : LogStore
  trace : List TaskOutcome
  ctx : ExecutionContext

/-- `engine.go` lines 255-273: the execution row after the terminal
transition — context snapshot attached, status `failed` iff the loop
produced an execution error. -/
def terminalRecord (rec0 : ExecutionRecord) (lr : LoopResult) : ExecutionRecord :=
  { rec0 with
    contextSnapshot := some lr.ctx
    status := if lr.err.isSome then "failed" else "completed" }

/-- `engine.go` lines 255-280: snapshot the context, set the terminal
status, and issue the final `UpdateExecution` (whose failure is returned
to the caller together with the record). -/
def finishExecution (logger : ExecutionLogger) (rec0 : ExecutionRecord)
    (lr : LoopResult) : RunResult :=
  let recF := terminalRecord rec0 lr
  match logger.UpdateExecution recF with
  | some e =>
    ⟨some recF, some ("failed to update execution: " ++ e), lr.store, lr.trace, lr.ctx⟩
  | none =>
    ⟨some recF, lr.err, lr.store.putExec none recF, lr.trace, lr.ctx⟩

/-- `Engine.ExecuteWithLogging` (`engine.go` lines 122-281).  The engine
context is replaced by a fresh empty one (line 129); the execution row is
updated (falling back to create) when `executionID` is supplied and
created under `freshID` (modelling `uuid.New()`) otherwise; then the task
loop and the terminal transition run. -/
def Engine.ExecuteWithLogging (reg : Registry) (wf : WorkflowDefinition)
    (workflowID : Nat) (logger : ExecutionLogger) (executionID : Option Nat)
    (freshID : Nat) (store0 : LogStore) : RunResult :=
  match executionID with
  | some i =>
    let rec0 : ExecutionRecord := ⟨i, workflowID, "running", none⟩
    match logger.UpdateExecution rec0 with
    | none =>
      finishExecution logger rec0
        (runTasksLogged reg logger rec0.id [] (store0.putExec none rec0) wf.tasks)
    | some _ =>
      match logger.CreateExecution rec0 with
      | none =>
        finishExecution logger rec0
          (runTasksLogged reg logger rec0.id [] (store0.putExec none rec0) wf.tasks)
      | some e =>
        ⟨none, some ("failed to create/update execution record: " ++ e), store0, [], []⟩
  | none =>
    let rec0 : ExecutionRecord := ⟨freshID, workflowID, "running", none⟩
    match logger.CreateExecution rec0 with
    | none =>
      finishExecution logger rec0
        (runTasksLogged reg logger rec0.id [] (store0.putExec none rec0) wf.tasks)
    | some e =>
      ⟨none, some ("failed to create execution record: " ++ e), store0, [], []⟩

/-- `handleRunWorkflow` (`cmd/api/handlers.go` lines 202-221): create the
pending execution row; on success dispatch the logging runner with that
row's id.  The asynchronous goroutine is sequentialized: claims concern
the store contents once the run has finished. -/
def handleRunWorkflow (reg : Registry) (wf : WorkflowDefinition)
    (workflowID : Nat) (logger : ExecutionLogger) (execID : Nat)
    (store0 : LogStore) : LogStore × Option RunResult :=
  let pending : ExecutionRecord := ⟨execID, workflowID, "pending", none⟩
  match logger.CreateExecution pending with
  | some _ => (store0, none)
  | none =>
    let store1 := store0.putExec none pending
    let r := Engine.ExecuteWithLogging reg wf workflowID logger (some execID) 0 store1
    (r.store, some r)

/-! ## Structural lemmas about the two runners -/

/-- The context bindings the runner publishes for the successes of a
trace, in execution order. -/
def publishedPairs : List TaskOutcome → List (String × Value)
  | [] => []
  | .succeeded id out :: tr => (id ++ "_result", out) :: publishedPairs tr
  | .missingExecutor _ _ :: tr => publishedPairs tr
  | .failed _ _ :: tr => publishedPairs tr

theorem resultKey_inj {a b : String} (h : a ++ "_result" = b ++ "_result") :
    a = b := by
  have hd := congrArg String.data h
  rw [String.data_append, String.data_append] at hd
  exact String.ext (List.append_inj_left' hd rfl)

theorem Get_append_notMem (l c : ExecutionContext) (key : String)
    (h : ∀ p ∈ l, p.1 ≠ key) :
    ExecutionContext.Get (l ++ c) key = ExecutionContext.Get c key := by
  induction l with
  | nil => rfl
  | cons p rest ih =>
    obtain ⟨k, v⟩ := p
    have hp : k ≠ key := h (k, v) (by simp)
    simp only [List.cons_append, ExecutionContext.Get, if_neg hp]
    exact ih (fun q hq => h q (by simp [hq]))

theorem publishedPairs_mem {tr : List TaskOutcome} {p : String × Value}
    (h : p ∈ publishedPairs tr) :
    ∃ o ∈ tr, TaskOutcome.isSuccess o = true ∧ p.1 = TaskOutcome.taskId o ++ "_result" := by
  induction tr with
  | nil => simp [publishedPairs] at h
  | cons o tr ih =>
    cases o with
    | succeeded id out =>
      rw [publishedPairs] at h
      rcases List.mem_cons.mp h with h | h
      · exact ⟨.succeeded id out, by simp, rfl, by simp [h, TaskOutcome.taskId]⟩
      · obtain ⟨o', ho', hs, hk⟩ := ih h
        exact ⟨o', by simp [ho'], hs, hk⟩
    | missingExecutor id ty =>
      rw [publishedPairs] at h
      obtain ⟨o', ho', hs, hk⟩ := ih h
      exact ⟨o', by simp [ho'], hs, hk⟩
    | failed id err =>
      rw [publishedPairs] at h
      obtain ⟨o', ho', hs, hk⟩ := ih h
      exact ⟨o', by simp [ho'], hs, hk⟩

/-- Final context shape of the un-logged loop: the published result
bindings (newest first) stacked on the initial context. -/
theorem executeTasks_ctx_eq (reg : Registry) :
    ∀ (ts : List Task) (ctx : ExecutionContext),
      (executeTasks reg ctx ts).ctx
        = (publishedPairs (executeTasks reg ctx ts).trace).reverse ++ ctx := by
  intro ts
  induction ts with
  | nil => intro ctx; simp [executeTasks, publishedPairs]
  | cons t rest ih =>
    intro ctx
    rw [executeTasks]
    cases hreg : Registry.Get reg t.type with
    | none => simp [publishedPairs]
    | some ex =>
      by_cases hs : (ex ctx t.config).status = "success"
      · simp only [hs, if_pos, publishedPairs, List.reverse_cons, List.append_assoc,
          List.singleton_append]
        exact ih (ExecutionContext.Set ctx (t.id ++ "_result") (ex ctx t.config).output)
      · simp [hs, publishedPairs]

/-- The trace is a per-index account of a prefix of the task list. -/
theorem executeTasks_trace_le (reg : Registry) :
    ∀ (ts : List Task) (ctx : ExecutionContext),
      (executeTasks reg ctx ts).trace.length ≤ ts.length := by
  intro ts
  induction ts with
  | nil => intro ctx; simp [executeTasks]
  | cons t rest ih =>
    intro ctx
    rw [executeTasks]
    cases hreg : Registry.Get reg t.type with
    | none => simp
    | some ex =>
      by_cases hs : (ex ctx t.config).status = "success"
      · simp only [hs, if_pos, List.length_cons]
        exact Nat.succ_le_succ
          (ih (ExecutionContext.Set ctx (t.id ++ "_result") (ex ctx t.config).output))
      · simp [hs]

/-- The `k`-th trace entry is about the `k`-th task. -/
theorem executeTasks_trace_ids (reg : Registry) :
    ∀ (ts : List Task) (ctx : ExecutionContext) (k : Nat) (o : TaskOutcome),
      (executeTasks reg ctx ts).trace.get? k = some o →
      ∃ t, ts.get? k = some t ∧ TaskOutcome.taskId o = t.id := by
  intro ts
  induction ts with
  | nil => intro ctx k o h; simp [executeTasks] at h
  | cons t rest ih =>
    intro ctx k o h
    rw [executeTasks] at h
    cases hreg : Registry.Get reg t.type with
    | none =>
      rw [hreg] at h
      simp only at h
      cases k with
      | zero =>
        simp at h
        exact ⟨t, rfl, by simp [← h, TaskOutcome.taskId]⟩
      | succ k => simp at h
    | some ex =>
      rw [hreg] at h
      by_cases hs : (ex ctx t.config).status = "success"
      · simp only [hs, if_pos] at h
        cases k with
        | zero =>
          simp at h
          exact ⟨t, rfl, by simp [← h, TaskOutcome.taskId]⟩
        | succ k =>
          simp only [List.get?_cons_succ] at h
          obtain ⟨t', ht', hid⟩ :=
            ih (ExecutionContext.Set ctx (t.id ++ "_result") (ex ctx t.config).output) k o h
          exact ⟨t', by simpa using ht', hid⟩
      · simp only [hs, if_neg, Bool.false_eq_true, not_false_iff] at h
        cases k with
        | zero =>
          simp at h
          exact ⟨t, rfl, by simp [← h, TaskOutcome.taskId]⟩
        | succ k => simp at h

/-- Every trace entry names a task of the list. -/
theorem executeTasks_trace_mem_ids (reg : Registry) (ts : List Task)
    (ctx : ExecutionContext) {o : TaskOutcome}
    (h : o ∈ (executeTasks reg ctx ts).trace) :
    TaskOutcome.taskId o ∈ ts.map Task.id := by
  obtain ⟨k, hk⟩ := List.get?_of_mem h
  obtain ⟨t, ht, hid⟩ := executeTasks_trace_ids reg ts ctx k o hk
  exact hid ▸ List.mem_map_of_mem Task.id (List.get?_mem ht)

/-- A non-success trace entry is the last one, and the run errors. -/
theorem executeTasks_halt (reg : Registry) :
    ∀ (ts : List Task) (ctx : ExecutionContext) (k : Nat) (o : TaskOutcome),
      (executeTasks reg ctx ts).trace.get? k = some o →
      TaskOutcome.isSuccess o = false →
      (executeTasks reg ctx ts).trace.length = k + 1
        ∧ (executeTasks reg ctx ts).err ≠ none := by
  intro ts
  induction ts with
  | nil => intro ctx k o h _; simp [executeTasks] at h
  | cons t rest ih =>
    intro ctx k o h hfail
    rw [executeTasks] at h ⊢
    cases hreg : Registry.Get reg t.type with
    | none =>
      rw [hreg] at h
      cases k with
      | zero => simp
      | succ k => simp at h
    | some ex =>
      rw [hreg] at h
      by_cases hs : (ex ctx t.config).status = "success"
      · simp only [hs, if_pos] at h ⊢
        cases k with
        | zero =>
          simp at h
          rw [← h] at hfail
          simp [TaskOutcome.isSuccess] at hfail
        | succ k =>
          simp only [List.get?_cons_succ] at h
          obtain ⟨hlen, herr⟩ :=
            ih (ExecutionContext.Set ctx (t.id ++ "_result") (ex ctx t.config).output) k o h hfail
          exact ⟨by simp [hlen], herr⟩
      · simp only [hs, if_neg, Bool.false_eq_true, not_false_iff] at h ⊢
        cases k with
        | zero => simp
        | succ k => simp at h

/-- An error-free run walks every task and every outcome is a success. -/
theorem executeTasks_ok (reg : Registry) :
    ∀ (ts : List Task) (ctx : ExecutionContext),
      (executeTasks reg ctx ts).err = none →
      (executeTasks reg ctx ts).trace.length = ts.length
        ∧ ∀ o ∈ (executeTasks reg ctx ts).trace, TaskOutcome.isSuccess o = true := by
  intro ts
  induction ts with
  | nil => intro ctx _; simp [executeTasks]
  | cons t rest ih =>
    intro ctx herr
    rw [executeTasks] at herr ⊢
    cases hreg : Registry.Get reg t.type with
    | none => rw [hreg] at herr; simp at herr
    | some ex =>
      rw [hreg] at herr
      by_cases hs : (ex ctx t.config).status = "success"
      · simp only [hs, if_pos] at herr ⊢
        obtain ⟨hlen, hall⟩ :=
          ih (ExecutionContext.Set ctx (t.id ++ "_result") (ex ctx t.config).output) herr
        refine ⟨by simp [hlen], ?_⟩
        intro o ho
        rcases List.mem_cons.mp ho with ho | ho
        · simp [ho, TaskOutcome.isSuccess]
        · exact hall o ho
      · simp only [hs, if_neg, Bool.false_eq_true, not_false_iff] at herr
        simp at herr

/-- Per-key preservation: `putTaskLog` never touches the execution rows. -/
theorem putTaskLog_execWrites (s : LogStore) (c : Option String) (r : TaskLogRecord) :
    (s.putTaskLog c r).execWrites = s.execWrites := by
  cases c <;> rfl

/-- The logging loop computes the same context, error and trace as the
un-logged loop, whatever the logger answers and whatever is in the store
(`engine.go` lines 189-192 and 245-247 swallow every task-log failure). -/
theorem runTasksLogged_proj (reg : Registry) (logger : ExecutionLogger) (execID : Nat) :
    ∀ (ts : List Task) (ctx : ExecutionContext) (store : LogStore),
      (runTasksLogged reg logger execID ctx store ts).ctx = (executeTasks reg ctx ts).ctx
      ∧ (runTasksLogged reg logger execID ctx store ts).err = (executeTasks reg ctx ts).err
      ∧ (runTasksLogged reg logger execID ctx store ts).trace
          = (executeTasks reg ctx ts).trace := by
  intro ts
  induction ts with
  | nil => intro ctx store; exact ⟨rfl, rfl, rfl⟩
  | cons t rest ih =>
    intro ctx store
    rw [runTasksLogged, executeTasks]
    cases hreg : Registry.Get reg t.type with
    | none => exact ⟨rfl, rfl, rfl⟩
    | some ex =>
      by_cases hs : (ex ctx t.config).status = "success"
      · simp only [hs, if_pos]
        exact ⟨(ih _ _).1, (ih _ _).2.1, by rw [(ih _ _).2.2]⟩
      · simp [hs]

/-- The logging loop only ever appends task-log rows: the execution rows
of the store are untouched by the loop. -/
theorem runTasksLogged_execWrites (reg : Registry) (logger : ExecutionLogger)
    (execID : Nat) :
    ∀ (ts : List Task) (ctx : ExecutionContext) (store : LogStore),
      (runTasksLogged reg logger execID ctx store ts).store.execWrites
        = store.execWrites := by
  intro ts
  induction ts with
  | nil => intro ctx store; rfl
  | cons t rest ih =>
    intro ctx store
    rw [runTasksLogged]
    cases hreg : Registry.Get reg t.type with
    | none => simp [putTaskLog_execWrites]
    | some ex =>
      by_cases hs : (ex ctx t.config).status = "success"
      · simp only [hs, if_pos]
        rw [ih]
        simp [putTaskLog_execWrites]
      · simp [hs, putTaskLog_execWrites]

/-- Key lemma for result-key publication: a success entry of the trace is
still bound (to the executor's output) in the final context, provided the
task ids of the workflow are pairwise distinct. -/
theorem executeTasks_get_succeeded (reg : Registry) :
    ∀ (ts : List Task) (ctx : ExecutionContext) (k : Nat) (tid : String) (out : Value),
      (ts.map Task.id).Nodup →
      (executeTasks reg ctx ts).trace.get? k = some (.succeeded tid out) →
      ExecutionContext.Get (executeTasks reg ctx ts).ctx (tid ++ "_result") = some out := by
  intro ts
  induction ts with
  | nil => intro ctx k tid out _ h; simp [executeTasks] at h
  | cons t rest ih =>
    intro ctx k tid out hnd h
    have hnd1 : (t.id :: rest.map Task.id).Nodup := by simpa using hnd
    have hnd' := List.nodup_cons.mp hnd1
    rw [executeTasks] at h ⊢
    cases hreg : Registry.Get reg t.type with
    | none =>
      rw [hreg] at h
      cases k with
      | zero => simp at h
      | succ k => simp at h
    | some ex =>
      rw [hreg] at h
      by_cases hs : (ex ctx t.config).status = "success"
      · simp only [hs, if_pos] at h ⊢
        cases k with
        | zero =>
          simp only [List.get?_cons_zero, Option.some_inj] at h
          have hid : t.id = tid := by
            have := congrArg TaskOutcome.taskId h
            simpa [TaskOutcome.taskId] using this
          have hout : (ex ctx t.config).output = out := by
            cases h; rfl
          rw [executeTasks_ctx_eq reg rest
            (ExecutionContext.Set ctx (t.id ++ "_result") (ex ctx t.config).output)]
          rw [Get_append_notMem]
          · simp [ExecutionContext.Set, ExecutionContext.Get, hid, hout]
          · intro p hp hcontra
            obtain ⟨o, ho, _, hkey⟩ := publishedPairs_mem (List.mem_reverse.mp hp)
            have hmem := executeTasks_trace_mem_ids reg rest _ ho
            rw [hkey] at hcontra
            have : TaskOutcome.taskId o = tid := resultKey_inj hcontra
            rw [this, ← hid] at hmem
            exact hnd'.1 hmem
        | succ k =>
          simp only [List.get?_cons_succ] at h
          exact ih _ k tid out hnd'.2 h
      · simp only [hs, if_neg, Bool.false_eq_true, not_false_iff] at h
        cases k with
        | zero => simp at h
        | succ k => simp at h

/-- `finishExecution` always hands the terminal record back. -/
theorem finishExecution_execution (logger : ExecutionLogger)
    (rec0 : ExecutionRecord) (lr : LoopResult) :
    (finishExecution logger rec0 lr).execution = some (terminalRecord rec0 lr) := by
  cases hu : logger.UpdateExecution (terminalRecord rec0 lr) <;>
    simp [finishExecution, hu]

/-- `finishExecution` forwards the loop's trace and context. -/
theorem finishExecution_trace_ctx (logger : ExecutionLogger)
    (rec0 : ExecutionRecord) (lr : LoopResult) :
    (finishExecution logger rec0 lr).trace = lr.trace
      ∧ (finishExecution logger rec0 lr).ctx = lr.ctx := by
  cases hu : logger.UpdateExecution (terminalRecord rec0 lr) <;>
    simp [finishExecution, hu]

/-- Returned error of `finishExecution`: the loop's error when the final
update succeeds, a `failed to update execution` error otherwise. -/
theorem finishExecution_error (logger : ExecutionLogger)
    (rec0 : ExecutionRecord) (lr : LoopResult) :
    (logger.UpdateExecution (terminalRecord rec0 lr) = none →
        (finishExecution logger rec0 lr).error = lr.err)
    ∧ (∀ e, logger.UpdateExecution (terminalRecord rec0 lr) = some e →
        (finishExecution logger rec0 lr).error
          = some ("failed to update execution: " ++ e)) := by
  cases hu : logger.UpdateExecution (terminalRecord rec0 lr) with
  | none => exact ⟨fun _ => by simp [finishExecution, hu], fun e he => by simp [hu] at he⟩
  | some e =>
    refine ⟨fun h => by simp at h, fun e' he' => ?_⟩
    obtain rfl := Option.some.inj he'
    simp [finishExecution, hu]

/-- Execution rows after `finishExecution`: the loop's rows, plus the
terminal record iff the final update succeeded. -/
theorem finishExecution_execWrites (logger : ExecutionLogger)
    (rec0 : ExecutionRecord) (lr : LoopResult) :
    (finishExecution logger rec0 lr).store.execWrites = lr.store.execWrites
    ∨ (finishExecution logger rec0 lr).store.execWrites
        = lr.store.execWrites ++ [terminalRecord rec0 lr] := by
  cases hu : logger.UpdateExecution (terminalRecord rec0 lr) with
  | none => right; simp [finishExecution, hu, LogStore.putExec]
  | some e => left; simp [finishExecution, hu]

/-- Start-phase analysis of `Engine.ExecuteWithLogging`: either the
initial create/update of the execution row fails entirely (nothing runs),
or the run is `finishExecution` of the logging loop started on a fresh
context from a `running` record. -/
theorem ExecuteWithLogging_start (reg : Registry) (wf : WorkflowDefinition)
    (wid : Nat) (logger : ExecutionLogger) (eid : Option Nat) (fid : Nat)
    (store0 : LogStore) :
    ((Engine.ExecuteWithLogging reg wf wid logger eid fid store0).execution = none
      ∧ (Engine.ExecuteWithLogging reg wf wid logger eid fid store0).trace = []
      ∧ (Engine.ExecuteWithLogging reg wf wid logger eid fid store0).store = store0
      ∧ ∃ rec0 : ExecutionRecord, logger.CreateExecution rec0 ≠ none)
    ∨ (∃ rec0 : ExecutionRecord,
        rec0.status = "running" ∧ rec0.contextSnapshot = none
        ∧ rec0.workflowID = wid
        ∧ Engine.ExecuteWithLogging reg wf wid logger eid fid store0
            = finishExecution logger rec0
                (runTasksLogged reg logger rec0.id [] (store0.putExec none rec0)
                  wf.tasks)) := by
  cases eid with
  | some i =>
    cases hu : logger.UpdateExecution ⟨i, wid, "running", none⟩ with
    | none =>
      refine Or.inr ⟨⟨i, wid, "running", none⟩, rfl, rfl, rfl, ?_⟩
      simp only [Engine.ExecuteWithLogging]
      rw [hu]
    | some e =>
      cases hc : logger.CreateExecution ⟨i, wid, "running", none⟩ with
      | none =>
        refine Or.inr ⟨⟨i, wid, "running", none⟩, rfl, rfl, rfl, ?_⟩
        simp only [Engine.ExecuteWithLogging]
        rw [hu, hc]
      | some e' =>
        refine Or.inl ⟨?_, ?_, ?_, ⟨i, wid, "running", none⟩, by rw [hc]; simp⟩ <;>
          · simp only [Engine.ExecuteWithLogging]
            rw [hu, hc]
  | none =>
    cases hc : logger.CreateExecution ⟨fid, wid, "running", none⟩ with
    | none =>
      refine Or.inr ⟨⟨fid, wid, "running", none⟩, rfl, rfl, rfl, ?_⟩
      simp only [Engine.ExecuteWithLogging]
      rw [hc]
    | some e =>
      refine Or.inl ⟨?_, ?_, ?_, ⟨fid, wid, "running", none⟩, by rw [hc]; simp⟩ <;>
        · simp only [Engine.ExecuteWithLogging]
          rw [hc]

/-- If the trace stops at index `i`, no result key of a task at an index
`j > i` is bound in the final context (task ids pairwise distinct). -/
theorem executeTasks_no_future_keys (reg : Registry) (ts : List Task)
    (hids : (ts.map Task.id).Nodup) (i j : Nat) (t : Task)
    (hlen : (executeTasks reg [] ts).trace.length = i + 1)
    (hij : i < j) (hjt : ts.get? j = some t) :
    ExecutionContext.Get (executeTasks reg [] ts).ctx (t.id ++ "_result") = none := by
  rw [executeTasks_ctx_eq reg ts []]
  rw [Get_append_notMem]
  · rfl
  · intro p hp hcontra
    obtain ⟨o, ho, _, hkey⟩ := publishedPairs_mem (List.mem_reverse.mp hp)
    obtain ⟨k, hk⟩ := List.get?_of_mem ho
    obtain ⟨t', ht', hid⟩ := executeTasks_trace_ids reg ts [] k o hk
    have hteq : t'.id = t.id := resultKey_inj (by rw [← hid, ← hkey]; exact hcontra)
    have hklt : k < (executeTasks reg [] ts).trace.length :=
      (List.get?_eq_some.mp hk).1
    have h1 : (ts.map Task.id).get? k = some t.id := by
      rw [List.get?_map, ht']
      simp [hteq]
    have h2 : (ts.map Task.id).get? j = some t.id := by
      rw [List.get?_map, hjt]
      simp
    have hkj : k = j := by
      refine List.get?_inj ?_ hids (h1.trans h2.symm)
      calc k < (executeTasks reg [] ts).trace.length := hklt
        _ ≤ ts.length := executeTasks_trace_le reg ts []
        _ = (ts.map Task.id).length := (List.length_map ts Task.id).symm
    omega

/-- C1 (halt on failure): if task `i` finishes `failed` then the trace —
one entry per attempted task, hence per created task log and per executor
invocation — stops at `i`; the run errors; for every later task `j > i`
its `id ++ "_result"` key is absent from the final context; and whenever
the logging runner produced an execution record at all, that record ends
`failed` carrying the halted context as its snapshot, with the same
trace.  Quantified over every registry, logger behaviour and workflow
whose task ids are distinct (the spec's `Task.id` is unique within its
workflow). -/
theorem halt_on_failure (reg : Registry) (wf : WorkflowDefinition) (wid : Nat)
    (logger : ExecutionLogger) (eid : Option Nat) (fid : Nat) (store0 : LogStore)
    (i : Nat) (tid msg : String)
    (hids : (wf.tasks.map Task.id).Nodup)
    (h : (Engine.Execute reg wf).trace.get? i = some (.failed tid msg)) :
    (Engine.Execute reg wf).trace.length = i + 1
    ∧ (Engine.Execute reg wf).err ≠ none
    ∧ (∀ j t, i < j → wf.tasks.get? j = some t →
        ExecutionContext.Get (Engine.Execute reg wf).ctx (t.id ++ "_result") = none)
    ∧ ((Engine.ExecuteWithLogging reg wf wid logger eid fid store0).execution = none
        ∧ (Engine.ExecuteWithLogging reg wf wid logger eid fid store0).trace = []
      ∨ ∃ rec,
        (Engine.ExecuteWithLogging reg wf wid logger eid fid store0).execution = some rec
        ∧ rec.status = "failed"
        ∧ rec.contextSnapshot = some (Engine.Execute reg wf).ctx
        ∧ (Engine.ExecuteWithLogging reg wf wid logger eid fid store0).trace
            = (Engine.Execute reg wf).trace) := by
  have hhalt := executeTasks_halt reg wf.tasks [] i _ h (by simp [TaskOutcome.isSuccess])
  refine ⟨hhalt.1, hhalt.2, ?_, ?_⟩
  · intro j t hij hjt
    exact executeTasks_no_future_keys reg wf.tasks hids i j t hhalt.1 hij hjt
  · rcases ExecuteWithLogging_start reg wf wid logger eid fid store0 with
      hnr | ⟨rec0, _, _, _, hrun⟩
    · exact Or.inl ⟨hnr.1, hnr.2.1⟩
    · right
      rw [hrun]
      obtain ⟨hc, he, ht⟩ :=
        runTasksLogged_proj reg logger rec0.id wf.tasks [] (store0.putExec none rec0)
      refine ⟨terminalRecord rec0 _, finishExecution_execution _ _ _, ?_, ?_, ?_⟩
      · show (if _ then "failed" else "completed") = "failed"
        rw [if_pos]
        rw [he]
        exact Option.isSome_iff_ne_none.mpr hhalt.2
      · show some _ = some _
        rw [hc]
        rfl
      · rw [(finishExecution_trace_ctx _ _ _).1, ht]
        rfl

/-- C2 (result-key publication): every success entry of the logging
runner's trace is bound in the context snapshot stored on the returned
execution record, under the key `taskId ++ "_result"`, to the output the
executor returned (task ids pairwise distinct, as the spec's data model
requires). -/
theorem result_key_publication (reg : Registry) (wf : WorkflowDefinition)
    (wid : Nat) (logger : ExecutionLogger) (eid : Option Nat) (fid : Nat)
    (store0 : LogStore) (k : Nat) (tid : String) (out : Value)
    (hids : (wf.tasks.map Task.id).Nodup)
    (h : (Engine.ExecuteWithLogging reg wf wid logger eid fid store0).trace.get? k
          = some (.succeeded tid out)) :
    ∃ rec snap,
      (Engine.ExecuteWithLogging reg wf wid logger eid fid store0).execution = some rec
      ∧ rec.contextSnapshot = some snap
      ∧ ExecutionContext.Get snap (tid ++ "_result") = some out := by
  rcases ExecuteWithLogging_start reg wf wid logger eid fid store0 with
    hnr | ⟨rec0, _, _, _, hrun⟩
  · rw [hnr.2.1] at h
    simp at h
  · rw [hrun] at h ⊢
    obtain ⟨hc, _, ht⟩ :=
      runTasksLogged_proj reg logger rec0.id wf.tasks [] (store0.putExec none rec0)
    rw [(finishExecution_trace_ctx _ _ _).1, ht] at h
    refine ⟨terminalRecord rec0 _, (executeTasks reg [] wf.tasks).ctx,
      finishExecution_execution _ _ _, ?_, ?_⟩
    · show some _ = some _
      rw [hc]
    · exact executeTasks_get_succeeded reg wf.tasks [] k tid out hids h

/-! ## Concrete fixtures used by the witnesses -/

/-- An executor that always succeeds with a fixed string output. -/
def okExecutor (out : String) : TaskExecutor :=
  fun _ _ => ⟨"success", Value.str out, ""⟩

/-- An executor that always fails with a fixed message. -/
def failExecutor (msg : String) : TaskExecutor :=
  fun _ _ => ⟨"failed", Value.null, msg⟩

/-- A registry with one succeeding and one failing executor. -/
def regW : Registry := [("ok", okExecutor "fine"), ("bad", failExecutor "boom")]

/-- Three tasks of which the middle one fails. -/
def wfFail : WorkflowDefinition :=
  ⟨"wf-fail", [⟨"t1", "ok", []⟩, ⟨"t2", "bad", []⟩, ⟨"t3", "ok", []⟩]⟩

/-- Two tasks that both succeed. -/
def wfOk : WorkflowDefinition :=
  ⟨"wf-ok", [⟨"a1", "ok", []⟩, ⟨"a2", "ok", []⟩]⟩

/-- A persistence port whose every call succeeds. -/
def loggerOK : ExecutionLogger :=
  ⟨fun _ => none, fun _ => none, fun _ => none, fun _ => none⟩

/-- A port whose task-log calls all fail while execution calls succeed. -/
def loggerTaskLogFail : ExecutionLogger :=
  ⟨fun _ => none, fun _ => none, fun _ => some "db down", fun _ => some "db down"⟩

/-- A port that creates execution rows but fails every update. -/
def loggerUpdateFail : ExecutionLogger :=
  ⟨fun _ => none, fun _ => some "db down", fun _ => none, fun _ => none⟩

/-- The empty store. -/
def emptyStore : LogStore := ⟨[], []⟩

/-- Witness for C1 at a concrete three-task run whose second task fails. -/
theorem halt_on_failure_witness :
    (Engine.Execute regW wfFail).trace.length = 1 + 1
    ∧ (Engine.Execute regW wfFail).err ≠ none
    ∧ (∀ j t, 1 < j → wfFail.tasks.get? j = some t →
        ExecutionContext.Get (Engine.Execute regW wfFail).ctx (t.id ++ "_result") = none)
    ∧ ((Engine.ExecuteWithLogging regW wfFail 7 loggerOK none 5 emptyStore).execution = none
        ∧ (Engine.ExecuteWithLogging regW wfFail 7 loggerOK none 5 emptyStore).trace = []
      ∨ ∃ rec,
        (Engine.ExecuteWithLogging regW wfFail 7 loggerOK none 5 emptyStore).execution
          = some rec
        ∧ rec.status = "failed"
        ∧ rec.contextSnapshot = some (Engine.Execute regW wfFail).ctx
        ∧ (Engine.ExecuteWithLogging regW wfFail 7 loggerOK none 5 emptyStore).trace
            = (Engine.Execute regW wfFail).trace) :=
  halt_on_failure regW wfFail 7 loggerOK none 5 emptyStore 1 "t2" "boom"
    (by decide) rfl

/-- Witness for C2 at a concrete two-task all-success run. -/
theorem result_key_publication_witness :
    ∃ rec snap,
      (Engine.ExecuteWithLogging regW wfOk 7 loggerOK (some 3) 5 emptyStore).execution
        = some rec
      ∧ rec.contextSnapshot = some snap
      ∧ ExecutionContext.Get snap ("a1" ++ "_result") = some (Value.str "fine") :=
  result_key_publication regW wfOk 7 loggerOK (some 3) 5 emptyStore 0 "a1"
    (Value.str "fine") (by decide) rfl

/-- C3 (logging-failure tolerance): when every task-log call fails while
the execution store works, a workflow whose tasks all succeed under the
un-logged runner is still walked in full by the logging runner, ends
`completed` with the context snapshot attached, and yields no
execution-level error. -/
theorem logging_failure_tolerance (reg : Registry) (wf : WorkflowDefinition)
    (wid : Nat) (logger : ExecutionLogger) (eid : Option Nat) (fid : Nat)
    (store0 : LogStore)
    (hce : ∀ r, logger.CreateExecution r = none)
    (hue : ∀ r, logger.UpdateExecution r = none)
    (hct : ∀ r, logger.CreateTaskLog r ≠ none)
    (hut : ∀ r, logger.UpdateTaskLog r ≠ none)
    (hok : (Engine.Execute reg wf).err = none) :
    (Engine.ExecuteWithLogging reg wf wid logger eid fid store0).trace.length
        = wf.tasks.length
    ∧ (Engine.ExecuteWithLogging reg wf wid logger eid fid store0).error = none
    ∧ ∃ rec,
      (Engine.ExecuteWithLogging reg wf wid logger eid fid store0).execution = some rec
      ∧ rec.status = "completed"
      ∧ rec.contextSnapshot = some (Engine.Execute reg wf).ctx := by
  rcases ExecuteWithLogging_start reg wf wid logger eid fid store0 with
    hnr | ⟨rec0, _, _, _, hrun⟩
  · obtain ⟨rec0, hbad⟩ := hnr.2.2.2
    exact absurd (hce rec0) hbad
  · rw [hrun]
    obtain ⟨hc, he, ht⟩ :=
      runTasksLogged_proj reg logger rec0.id wf.tasks [] (store0.putExec none rec0)
    have hterm :
        terminalRecord rec0
            (runTasksLogged reg logger rec0.id [] (store0.putExec none rec0) wf.tasks)
          = { rec0 with
              contextSnapshot := some (executeTasks reg [] wf.tasks).ctx
              status := "completed" } := by
      unfold terminalRecord
      rw [hc, he]
      have hnone : (executeTasks reg [] wf.tasks).err = none := hok
      rw [hnone]
      simp
    refine ⟨?_, ?_, terminalRecord rec0 _, finishExecution_execution _ _ _, ?_, ?_⟩
    · rw [(finishExecution_trace_ctx _ _ _).1, ht]
      exact (executeTasks_ok reg wf.tasks [] hok).1
    · rw [(finishExecution_error _ _ _).1 (hue _), he]
      exact hok
    · rw [hterm]
    · rw [hterm]
      rfl

/-- Witness for C3 at a concrete two-task all-success run against the
port whose task-log calls all fail. -/
theorem logging_failure_tolerance_witness :
    (Engine.ExecuteWithLogging regW wfOk 7 loggerTaskLogFail (some 3) 5
        emptyStore).trace.length = wfOk.tasks.length
    ∧ (Engine.ExecuteWithLogging regW wfOk 7 loggerTaskLogFail (some 3) 5
        emptyStore).error = none
    ∧ ∃ rec,
      (Engine.ExecuteWithLogging regW wfOk 7 loggerTaskLogFail (some 3) 5
          emptyStore).execution = some rec
      ∧ rec.status = "completed"
      ∧ rec.contextSnapshot = some (Engine.Execute regW wfOk).ctx :=
  logging_failure_tolerance regW wfOk 7 loggerTaskLogFail (some 3) 5 emptyStore
    (fun _ => rfl) (fun _ => rfl)
    (fun _ => Option.some_ne_none _) (fun _ => Option.some_ne_none _) rfl

/-- C8 (refinement): against a port whose calls never fail, the logging
runner attempts exactly the tasks the un-logged runner attempts with the
same per-task outcomes (same executors, same order, same halting point),
ends with the identical context, and returns an execution error exactly
when — and with the same message as — the un-logged runner. -/
theorem logging_runner_refines (reg : Registry) (wf : WorkflowDefinition)
    (wid : Nat) (logger : ExecutionLogger) (eid : Option Nat) (fid : Nat)
    (store0 : LogStore)
    (hce : ∀ r, logger.CreateExecution r = none)
    (hue : ∀ r, logger.UpdateExecution r = none)
    (hct : ∀ r, logger.CreateTaskLog r = none)
    (hut : ∀ r, logger.UpdateTaskLog r = none) :
    (Engine.ExecuteWithLogging reg wf wid logger eid fid store0).trace
        = (Engine.Execute reg wf).trace
    ∧ (Engine.ExecuteWithLogging reg wf wid logger eid fid store0).ctx
        = (Engine.Execute reg wf).ctx
    ∧ (Engine.ExecuteWithLogging reg wf wid logger eid fid store0).error
        = (Engine.Execute reg wf).err
    ∧ ∃ rec,
      (Engine.ExecuteWithLogging reg wf wid logger eid fid store0).execution = some rec
      ∧ rec.contextSnapshot = some (Engine.Execute reg wf).ctx := by
  rcases ExecuteWithLogging_start reg wf wid logger eid fid store0 with
    hnr | ⟨rec0, _, _, _, hrun⟩
  · obtain ⟨rec0, hbad⟩ := hnr.2.2.2
    exact absurd (hce rec0) hbad
  · rw [hrun]
    obtain ⟨hc, he, ht⟩ :=
      runTasksLogged_proj reg logger rec0.id wf.tasks [] (store0.putExec none rec0)
    refine ⟨?_, ?_, ?_, terminalRecord rec0 _, finishExecution_execution _ _ _, ?_⟩
    · rw [(finishExecution_trace_ctx _ _ _).1, ht]
      rfl
    · rw [(finishExecution_trace_ctx _ _ _).2, hc]
      rfl
    · rw [(finishExecution_error _ _ _).1 (hue _), he]
      rfl
    · show some _ = some _
      rw [hc]
      rfl

/-- Witness for C8 at a concrete failing run against the all-ok port. -/
theorem logging_runner_refines_witness :
    (Engine.ExecuteWithLogging regW wfFail 7 loggerOK none 5 emptyStore).trace
        = (Engine.Execute regW wfFail).trace
    ∧ (Engine.ExecuteWithLogging regW wfFail 7 loggerOK none 5 emptyStore).ctx
        = (Engine.Execute regW wfFail).ctx
    ∧ (Engine.ExecuteWithLogging regW wfFail 7 loggerOK none 5 emptyStore).error
        = (Engine.Execute regW wfFail).err
    ∧ ∃ rec,
      (Engine.ExecuteWithLogging regW wfFail 7 loggerOK none 5 emptyStore).execution
        = some rec
      ∧ rec.contextSnapshot = some (Engine.Execute regW wfFail).ctx :=
  logging_runner_refines regW wfFail 7 loggerOK none 5 emptyStore
    (fun _ => rfl) (fun _ => rfl) (fun _ => rfl) (fun _ => rfl)

/-- C10 (final-update failure surfaces): when the execution store accepts
creates but rejects every update, the logging runner returns a non-nil
error together with the execution record, and if every task succeeded the
returned record still says `completed`. -/
theorem final_update_failure_surfaces (reg : Registry) (wf : WorkflowDefinition)
    (wid : Nat) (logger : ExecutionLogger) (fid : Nat) (store0 : LogStore)
    (hce : ∀ r, logger.CreateExecution r = none)
    (hue : ∀ r, logger.UpdateExecution r ≠ none) :
    (Engine.ExecuteWithLogging reg wf wid logger none fid store0).error ≠ none
    ∧ ∃ rec,
      (Engine.ExecuteWithLogging reg wf wid logger none fid store0).execution = some rec
      ∧ ((Engine.Execute reg wf).err = none → rec.status = "completed") := by
  rcases ExecuteWithLogging_start reg wf wid logger none fid store0 with
    hnr | ⟨rec0, _, _, _, hrun⟩
  · obtain ⟨rec0, hbad⟩ := hnr.2.2.2
    exact absurd (hce rec0) hbad
  · rw [hrun]
    obtain ⟨hc, he, ht⟩ :=
      runTasksLogged_proj reg logger rec0.id wf.tasks [] (store0.putExec none rec0)
    obtain ⟨e, hupd⟩ := Option.ne_none_iff_exists'.mp (hue (terminalRecord rec0
      (runTasksLogged reg logger rec0.id [] (store0.putExec none rec0) wf.tasks)))
    refine ⟨?_, terminalRecord rec0 _, finishExecution_execution _ _ _, ?_⟩
    · rw [(finishExecution_error _ _ _).2 e hupd]
      simp
    · intro hok
      show (if _ then "failed" else "completed") = "completed"
      rw [if_neg]
      rw [he]
      unfold Engine.Execute at hok
      rw [hok]
      simp

/-- Witness for C10 at a concrete all-success run against the port that
rejects updates. -/
theorem final_update_failure_surfaces_witness :
    (Engine.ExecuteWithLogging regW wfOk 7 loggerUpdateFail none 5 emptyStore).error ≠ none
    ∧ ∃ rec,
      (Engine.ExecuteWithLogging regW wfOk 7 loggerUpdateFail none 5
          emptyStore).execution = some rec
      ∧ ((Engine.Execute regW wfOk).err = none → rec.status = "completed") :=
  final_update_failure_surfaces regW wfOk 7 loggerUpdateFail 5 emptyStore
    (fun _ => rfl) (fun _ => Option.some_ne_none _)

/-! ## C4: snapshot present iff terminal -/

/-- The invariant of claim C4 on one execution row: the context snapshot
column is non-null exactly when the status is terminal. -/
def snapshotIffTerminal (rec : ExecutionRecord) : Prop :=
  rec.contextSnapshot.isSome = true
    ↔ (rec.status = "completed" ∨ rec.status = "failed")

/-- The terminal record always satisfies the C4 invariant. -/
theorem terminalRecord_snapInv (rec0 : ExecutionRecord) (lr : LoopResult) :
    snapshotIffTerminal (terminalRecord rec0 lr) := by
  unfold snapshotIffTerminal terminalRecord
  cases lr.err.isSome <;> simp

/-- The logging runner preserves the C4 invariant across every execution
row it stores, and its returned record satisfies it. -/
theorem ExecuteWithLogging_snapInv (reg : Registry) (wf : WorkflowDefinition)
    (wid : Nat) (logger : ExecutionLogger) (eid : Option Nat) (fid : Nat)
    (store0 : LogStore)
    (h0 : ∀ rec ∈ store0.execWrites, snapshotIffTerminal rec) :
    (∀ rec ∈ (Engine.ExecuteWithLogging reg wf wid logger eid fid
        store0).store.execWrites, snapshotIffTerminal rec)
    ∧ (∀ rec, (Engine.ExecuteWithLogging reg wf wid logger eid fid
        store0).execution = some rec → snapshotIffTerminal rec) := by
  rcases ExecuteWithLogging_start reg wf wid logger eid fid store0 with
    hnr | ⟨rec0, hst, hsnap0, _, hrun⟩
  · refine ⟨?_, ?_⟩
    · rw [hnr.2.2.1]
      exact h0
    · intro rec hrec
      rw [hnr.1] at hrec
      simp at hrec
  · have hrec0 : snapshotIffTerminal rec0 := by
      unfold snapshotIffTerminal
      rw [hst, hsnap0]
      simp
    have hloop : ∀ rec ∈ (runTasksLogged reg logger rec0.id []
        (store0.putExec none rec0) wf.tasks).store.execWrites, snapshotIffTerminal rec := by
      rw [runTasksLogged_execWrites]
      show ∀ rec ∈ store0.execWrites ++ [rec0], _
      intro rec hrec
      rcases List.mem_append.mp hrec with hm | hm
      · exact h0 rec hm
      · rw [List.mem_singleton.mp hm]
        exact hrec0
    rw [hrun]
    refine ⟨?_, ?_⟩
    · intro rec hrec
      rcases finishExecution_execWrites logger rec0
          (runTasksLogged reg logger rec0.id [] (store0.putExec none rec0) wf.tasks) with
        hw | hw
      · rw [hw] at hrec
        exact hloop rec hrec
      · rw [hw] at hrec
        rcases List.mem_append.mp hrec with hm | hm
        · exact hloop rec hm
        · rw [List.mem_singleton.mp hm]
          exact terminalRecord_snapInv _ _
    · intro rec hrec
      rw [finishExecution_execution] at hrec
      rw [← Option.some_inj.mp hrec]
      exact terminalRecord_snapInv _ _

/-- C4 (snapshot non-null iff terminal): starting the run endpoint's
dispatch against any store whose execution rows already satisfy the
invariant, every execution row visible afterwards — the `pending` row
created by the dispatcher, the `running` row written by the runner, and
the terminal row — has a non-null context snapshot exactly when its
status is `completed` or `failed`; the record the runner returns likewise
carries the snapshot exactly because it is terminal. -/
theorem snapshot_iff_terminal (reg : Registry) (wf : WorkflowDefinition)
    (wid : Nat) (logger : ExecutionLogger) (execID : Nat) (store0 : LogStore)
    (h0 : ∀ rec ∈ store0.execWrites, snapshotIffTerminal rec) :
    (∀ rec ∈ (handleRunWorkflow reg wf wid logger execID store0).1.execWrites,
        snapshotIffTerminal rec)
    ∧ (∀ r rec, (handleRunWorkflow reg wf wid logger execID store0).2 = some r →
        r.execution = some rec → snapshotIffTerminal rec) := by
  cases hc : logger.CreateExecution ⟨execID, wid, "pending", none⟩ with
  | some e =>
    simp only [handleRunWorkflow]
    rw [hc]
    refine ⟨h0, ?_⟩
    intro r rec hr
    simp at hr
  | none =>
    simp only [handleRunWorkflow]
    rw [hc]
    have h1 : ∀ rec ∈ (store0.putExec none
        ⟨execID, wid, "pending", none⟩).execWrites, snapshotIffTerminal rec := by
      show ∀ rec ∈ store0.execWrites ++ [_], _
      intro rec hrec
      rcases List.mem_append.mp hrec with hm | hm
      · exact h0 rec hm
      · rw [List.mem_singleton.mp hm]
        unfold snapshotIffTerminal
        simp
    obtain ⟨ha, hb⟩ := ExecuteWithLogging_snapInv reg wf wid logger (some execID) 0
      (store0.putExec none ⟨execID, wid, "pending", none⟩) h1
    refine ⟨ha, ?_⟩
    intro r rec hr hrec
    obtain rfl := Option.some_inj.mp hr
    exact hb rec hrec

/-- Witness for C4 at a concrete dispatched run over the empty store. -/
theorem snapshot_iff_terminal_witness :
    (∀ rec ∈ (handleRunWorkflow regW wfFail 7 loggerOK 3 emptyStore).1.execWrites,
        snapshotIffTerminal rec)
    ∧ (∀ r rec, (handleRunWorkflow regW wfFail 7 loggerOK 3 emptyStore).2 = some r →
        r.execution = some rec → snapshotIffTerminal rec) :=
  snapshot_iff_terminal regW wfFail 7 loggerOK 3 emptyStore
    (fun rec hrec => absurd hrec (List.not_mem_nil rec))

/-! ## Task executors (internal/tasks)

The external libraries these executors call — `text/template`, goquery's
CSS engine, `encoding/json.Unmarshal` on arbitrary strings, and the
`net/http` transport — are abstracted as explicit parameters; the
repository code around them is embedded statement by statement. -/

/-- `unicode.IsSpace`, the predicate behind Go `strings.TrimSpace`: the
Unicode White_Space code points — 0x09-0x0D, space, NEL (0x85),
NBSP (0xA0), 0x1680, 0x2000-0x200A, 0x2028, 0x2029, 0x202F, 0x205F and
0x3000. -/
def isSpaceChar (c : Char) : Bool :=
  (0x09 ≤ c.val && c.val ≤ 0x0D) || c.val = 0x20 || c.val = 0x85 || c.val = 0xA0
    || c.val = 0x1680 || (0x2000 ≤ c.val && c.val ≤ 0x200A)
    || c.val = 0x2028 || c.val = 0x2029 || c.val = 0x202F || c.val = 0x205F
    || c.val = 0x3000

/-- Go `strings.TrimSpace`: drop leading and trailing White_Space. -/
def trimSpace (s : String) : String :=
  String.mk (((s.data.dropWhile isSpaceChar).reverse.dropWhile isSpaceChar).reverse)

/-- First-match lookup in a string-to-string association list. -/
def lookupStr : List (String × String) → String → Option String
  | [], _ => none
  | (k, v) :: rest, key => if k = key then some v else lookupStr rest key

/-- An HTML element as the extractor observes it through goquery: its
rendered text and its attributes. -/
structure Element where
  text : String
  attrs : List (String × String)

/-- `SelectorConfig` (http_task_test.go part, lines 374-379). -/
structure SelectorConfig where
  Name : String
  Selector : String
  Attribute : String
  Multiple : Bool

/-- `HTMLParserTask.extractValue` (lines 570-582): the named attribute's
trimmed value (empty when absent) when an attribute is requested,
otherwise the node's trimmed text.  `none` models the empty selection
`First()` yields on no matches (its text is empty and no attribute
exists). -/
def HTMLParserTask.extractValue (s : Option Element) (attrName : String) : String :=
  if attrName ≠ "" then
    match s with
    | none => ""
    | some e =>
      match lookupStr e.attrs attrName with
      | none => ""
      | some v => trimSpace v
  else
    match s with
    | none => ""
    | some e => trimSpace e.text

/-- `HTMLParserTask.extractData` (lines 531-567) over a parsed document,
abstracted as the function `find` from a CSS selector to its matches in
document order.  `multiple` collects every extracted value that is
non-empty; otherwise the first match's value is stored. -/
def HTMLParserTask.extractData (find : String → List Element)
    (selectors : List SelectorConfig) : List (String × Value) :=
  selectors.foldl
    (fun resultMap sel =>
      let selection := find sel.Selector
      if sel.Multiple then
        let values :=
          (selection.map (fun e => HTMLParserTask.extractValue (some e) sel.Attribute)).filter
            (fun v => v ≠ "")
        ExecutionContext.Set resultMap sel.Name (Value.list (values.map Value.str))
      else
        ExecutionContext.Set resultMap sel.Name
          (Value.str (HTMLParserTask.extractValue selection.head? sel.Attribute)))
    []

/-- One `multiple` selector computes the filtered list of extracted
values. -/
theorem extractData_single_multiple (find : String → List Element)
    (nm selStr attr : String) :
    HTMLParserTask.extractData find [⟨nm, selStr, attr, true⟩]
      = [(nm, Value.list ((((find selStr).map
          (fun e => HTMLParserTask.extractValue (some e) attr)).filter
            (fun v => v ≠ "")).map Value.str))] := rfl

/-- A two-element document for the C5 counterexample: the second `.a`
match has whitespace-only text. -/
def findBlank : String → List Element := fun sel =>
  if sel = ".a" then [⟨"hi", []⟩, ⟨" ", []⟩] else []

/-- C5 counterexample: over HTML whose two `.a` matches include one with
empty trimmed text, the `multiple` extraction at key `x` is not a list of
length 2 = n: the extractor filters empty values out (extractData line
543-546), so the list has length 1. -/
theorem html_multiple_counterexample :
    ¬ ∃ items : List Value,
      ExecutionContext.Get
          (HTMLParserTask.extractData findBlank [⟨"x", ".a", "", true⟩]) "x"
        = some (Value.list items)
      ∧ items.length = (findBlank ".a").length := by
  rintro ⟨items, hget, hlen⟩
  have hc : ExecutionContext.Get
      (HTMLParserTask.extractData findBlank [⟨"x", ".a", "", true⟩]) "x"
      = some (Value.list [Value.str "hi"]) := rfl
  rw [hc] at hget
  have hitems : items = [Value.str "hi"] := by
    have h2 := Option.some_inj.mp hget
    injection h2 with h3
    exact h3.symm
  rw [hitems] at hlen
  simp [findBlank] at hlen

/-- C5 as amended: for every document, the `multiple` output at the
selector's name is the list of the matches' trimmed texts in document
order with empty strings filtered out; and whenever every match has
non-empty trimmed text, that is a list of length n whose i-th element is
the trimmed text of the i-th match. -/
theorem html_multiple_amended (find : String → List Element) (nm selStr : String) :
    ExecutionContext.Get (HTMLParserTask.extractData find [⟨nm, selStr, "", true⟩]) nm
        = some (Value.list ((((find selStr).map (fun e => trimSpace e.text)).filter
            (fun v => v ≠ "")).map Value.str))
    ∧ ((∀ e ∈ find selStr, trimSpace e.text ≠ "") →
        ExecutionContext.Get
            (HTMLParserTask.extractData find [⟨nm, selStr, "", true⟩]) nm
          = some (Value.list ((find selStr).map (fun e => Value.str (trimSpace e.text))))
        ∧ ((find selStr).map (fun e => Value.str (trimSpace e.text))).length
            = (find selStr).length
        ∧ ∀ i, ((find selStr).map (fun e => Value.str (trimSpace e.text))).get? i
            = ((find selStr).get? i).map (fun e => Value.str (trimSpace e.text))) := by
  have h1 : (find selStr).map (fun e => HTMLParserTask.extractValue (some e) "")
      = (find selStr).map (fun e => trimSpace e.text) := rfl
  constructor
  · rw [extractData_single_multiple, h1]
    simp [ExecutionContext.Get]
  · intro h
    have h2 : ((find selStr).map (fun e => trimSpace e.text)).filter (fun v => v ≠ "")
        = (find selStr).map (fun e => trimSpace e.text) := by
      rw [List.filter_eq_self]
      intro v hv
      obtain ⟨e, he, rfl⟩ := List.mem_map.mp hv
      simpa using h e he
    refine ⟨?_, by simp, fun i => by simp [List.get?_map]⟩
    rw [extractData_single_multiple, h1, h2, List.map_map]
    simp [ExecutionContext.Get, Function.comp]

/-- A two-element document whose matches both trim to non-empty text. -/
def findPair : String → List Element := fun sel =>
  if sel = ".a" then [⟨" hi ", []⟩, ⟨"yo", []⟩] else []

/-- Witness for the amended C5: the unconditional filtered form at the
document with a whitespace-only match (where the filter really drops an
entry), and the full conclusion — with the all-non-empty hypothesis
discharged — at a document whose matches all trim non-empty. -/
theorem html_multiple_amended_witness :
    (ExecutionContext.Get
        (HTMLParserTask.extractData findBlank [⟨"x", ".a", "", true⟩]) "x"
      = some (Value.list ((((findBlank ".a").map (fun e => trimSpace e.text)).filter
          (fun v => v ≠ "")).map Value.str)))
    ∧ (ExecutionContext.Get
          (HTMLParserTask.extractData findPair [⟨"x", ".a", "", true⟩]) "x"
        = some (Value.list ((findPair ".a").map (fun e => Value.str (trimSpace e.text))))
      ∧ ((findPair ".a").map (fun e => Value.str (trimSpace e.text))).length
          = (findPair ".a").length
      ∧ ∀ i, ((findPair ".a").map (fun e => Value.str (trimSpace e.text))).get? i
          = ((findPair ".a").get? i).map (fun e => Value.str (trimSpace e.text))) :=
  ⟨(html_multiple_amended findBlank "x" ".a").1,
    (html_multiple_amended findPair "x" ".a").2 (by decide)⟩

/-! ## Template transformer (TransformTask, unnamed part_007) -/

/-- Go's `text/template` engine, abstracted.  `parse` receives the names
registered in the `FuncMap` (Go resolves function names at parse time);
`exec` renders a parsed template against a root value. -/
structure TmplEngine (T : Type) where
  parse : List String → String → Except String T
  exec : T → Value → Except String String

/-- `createTemplateFuncMap` (part_007 lines 129-160): the names of the
six helper functions the transformer registers (the behaviours live in
the template engine; only the names matter for parse-time resolution). -/
def createTemplateFuncMap : List String :=
  ["toUpper", "toLower", "trim", "join", "toJSON", "default"]

/-- `TransformTask` input resolution (part_007 lines 49-62): the
`data_source` context value when the key names one (empty mapping when
the key is absent — not a failure), the whole context otherwise. -/
def TransformTask.inputData (ctx : ExecutionContext) (config : Config) : Value :=
  match Config.getString config "data_source" with
  | some ds =>
    if ds ≠ "" then
      match ExecutionContext.Get ctx ds with
      | none => Value.obj []
      | some v => v
    else Value.obj ctx
  | none => Value.obj ctx

/-- `TransformTask` output format (part_007 lines 64-68): the config's
`output_format` string when present, else `json`. -/
def TransformTask.outputFormat (config : Config) : String :=
  match Config.getString config "output_format" with
  | some f => f
  | none => "json"

/-- `TransformTask.Execute` (part_007 lines 37-119): validate the
template string, resolve the input, parse with the helper `FuncMap`,
execute, then — under `output_format = json` — decode the rendered
string, falling back to the raw string on decode failure; under any other
format return the raw string.  Rendering succeeds ⇒ the task succeeds. -/
def TransformTask.Execute {T : Type} (E : TmplEngine T)
    (jsonUnmarshal : String → Option Value) (ctx : ExecutionContext)
    (config : Config) : TaskResult :=
  match Config.getString config "template" with
  | none => ⟨"failed", Value.null, "missing or invalid \x27template\x27 in configuration"⟩
  | some templateStr =>
    if templateStr = "" then
      ⟨"failed", Value.null, "missing or invalid \x27template\x27 in configuration"⟩
    else
      match E.parse createTemplateFuncMap templateStr with
      | .error e => ⟨"failed", Value.null, "failed to parse template: " ++ e⟩
      | .ok tmpl =>
        match E.exec tmpl (TransformTask.inputData ctx config) with
        | .error e => ⟨"failed", Value.null, "failed to execute template: " ++ e⟩
        | .ok result =>
          if TransformTask.outputFormat config = "json" then
            match jsonUnmarshal result with
            | none => ⟨"success", Value.str result, ""⟩
            | some v => ⟨"success", v, ""⟩
          else ⟨"success", Value.str result, ""⟩

/-- C6 (transform JSON fallback): when the template renders to a string
`R` that the JSON decoder rejects, the transformer under
`output_format = json` still succeeds and its output is exactly the raw
rendered string; template parse errors and execution errors, by
contrast, fail the task. -/
theorem transform_json_fallback {T : Type} (E : TmplEngine T)
    (jsonUnmarshal : String → Option Value) (ctx : ExecutionContext)
    (config : Config) (tstr : String)
    (ht : Config.getString config "template" = some tstr) (ht' : tstr ≠ "") :
    (∀ tmpl R, E.parse createTemplateFuncMap tstr = .ok tmpl →
      E.exec tmpl (TransformTask.inputData ctx config) = .ok R →
      jsonUnmarshal R = none →
      TransformTask.outputFormat config = "json" →
      TransformTask.Execute E jsonUnmarshal ctx config = ⟨"success", Value.str R, ""⟩)
    ∧ (∀ e, E.parse createTemplateFuncMap tstr = .error e →
      TransformTask.Execute E jsonUnmarshal ctx config
        = ⟨"failed", Value.null, "failed to parse template: " ++ e⟩)
    ∧ (∀ tmpl e, E.parse createTemplateFuncMap tstr = .ok tmpl →
      E.exec tmpl (TransformTask.inputData ctx config) = .error e →
      TransformTask.Execute E jsonUnmarshal ctx config
        = ⟨"failed", Value.null, "failed to execute template: " ++ e⟩) := by
  refine ⟨fun tmpl R hp he hj hf => ?_, fun e hp => ?_, fun tmpl e hp he => ?_⟩
  · simp [TransformTask.Execute, ht, ht', hp, he, hj, hf]
  · simp [TransformTask.Execute, ht, ht', hp]
  · simp [TransformTask.Execute, ht, ht', hp, he]

/-- A template engine that renders every template to its own text. -/
def idTmplEngine : TmplEngine String :=
  ⟨fun _ s => Except.ok s, fun s _ => Except.ok s⟩

/-- A JSON decoder that rejects every string. -/
def rejectAllJson : String → Option Value := fun _ => none

/-- A transform config whose template renders to a non-JSON string. -/
def cfgTransform : Config :=
  [("template", Value.str "hello world"), ("output_format", Value.str "json")]

/-- Witness for C6 at a concrete config and engine. -/
theorem transform_json_fallback_witness :
    (∀ tmpl R, idTmplEngine.parse createTemplateFuncMap "hello world" = .ok tmpl →
      idTmplEngine.exec tmpl (TransformTask.inputData [] cfgTransform) = .ok R →
      rejectAllJson R = none →
      TransformTask.outputFormat cfgTransform = "json" →
      TransformTask.Execute idTmplEngine rejectAllJson [] cfgTransform
        = ⟨"success", Value.str R, ""⟩)
    ∧ (∀ e, idTmplEngine.parse createTemplateFuncMap "hello world" = .error e →
      TransformTask.Execute idTmplEngine rejectAllJson [] cfgTransform
        = ⟨"failed", Value.null, "failed to parse template: " ++ e⟩)
    ∧ (∀ tmpl e, idTmplEngine.parse createTemplateFuncMap "hello world" = .ok tmpl →
      idTmplEngine.exec tmpl (TransformTask.inputData [] cfgTransform) = .error e →
      TransformTask.Execute idTmplEngine rejectAllJson [] cfgTransform
        = ⟨"failed", Value.null, "failed to execute template: " ++ e⟩) :=
  transform_json_fallback idTmplEngine rejectAllJson [] cfgTransform "hello world"
    rfl (by decide)

/-! ## HTTP executor (HTTPTask, internal/tasks/http_task.go) -/

/-- Go `strings.Contains`. -/
def containsSubstr (s sub : String) : Bool :=
  decide (List.IsInfix sub.data s.data)

/-- Go `http.Header.Get`: the first value for the key, `""` when absent
(canonical-case keys assumed on both sides). -/
def headerGet (headers : List (String × String)) (key : String) : String :=
  match lookupStr headers key with
  | none => ""
  | some v => v

/-- A completed HTTP response as the executor reads it: status code,
headers, and the fully-read body. -/
structure HTTPResponse where
  statusCode : Nat
  headers : List (String × String)
  body : String

/-- `HTTPTask.interpolateBody` (http_task.go lines 180-202): the body
template is parsed with `template.New("body").Parse` — registering no
helper `FuncMap` — and executed against `{context: snapshot}`. -/
def HTTPTask.interpolateBody {T : Type} (E : TmplEngine T) (bodyTemplate : String)
    (ctx : ExecutionContext) : Except String String :=
  match E.parse [] bodyTemplate with
  | .error e => .error ("failed to parse template: " ++ e)
  | .ok tmpl =>
    match E.exec tmpl (Value.obj [("context", Value.obj ctx)]) with
    | .error e => .error ("failed to execute template: " ++ e)
    | .ok s => .ok s

/-- Config body (http_task.go lines 64-67): the `body` string or `""`. -/
def HTTPTask.configBody (config : Config) : String :=
  match Config.getString config "body" with
  | some b => b
  | none => ""

/-- The body actually sent (lines 69-81): the raw config body when empty,
the interpolated body otherwise. -/
def HTTPTask.effectiveBody {T : Type} (E : TmplEngine T) (ctx : ExecutionContext)
    (config : Config) : Except String String :=
  if HTTPTask.configBody config ≠ "" then
    HTTPTask.interpolateBody E (HTTPTask.configBody config) ctx
  else .ok (HTTPTask.configBody config)

/-- Config timeout (lines 55-61): integer seconds, default 30. -/
def HTTPTask.configTimeout (config : Config) : Nat :=
  match ExecutionContext.Get config "timeout" with
  | some (Value.int n) => n.toNat
  | _ => 30

/-- Request headers (lines 100-111): the config's string-valued headers,
plus a default `Content-Type: application/json` when a body is present
and none was set. -/
def HTTPTask.requestHeaders (config : Config) (body : String) : List (String × String) :=
  let hdrs :=
    match ExecutionContext.Get config "headers" with
    | some (Value.obj hs) =>
      hs.foldl (fun acc kv =>
        match kv.2 with
        | Value.str v => acc ++ [(kv.1, v)]
        | _ => acc) []
    | _ => []
  if body ≠ "" ∧ headerGet hdrs "Content-Type" = "" then
    hdrs ++ [("Content-Type", "application/json")]
  else hdrs

/-- Response-body shaping (lines 151-161): decode JSON iff the response
`Content-Type` contains `application/json`, falling back to — and, for
other content types, directly returning — the raw body string. -/
def HTTPTask.parseResponseBody (jsonUnmarshal : String → Option Value)
    (contentType respBody : String) : Value :=
  if containsSubstr contentType "application/json" then
    match jsonUnmarshal respBody with
    | none => Value.str respBody
    | some v => v
  else Value.str respBody

/-- The response headers as placed in the output (Go `http.Header` is
`map[string][]string`; modelled single-valued). -/
def headersValue (headers : List (String × String)) : Value :=
  Value.obj (headers.map (fun kv => (kv.1, Value.list [Value.str kv.2])))

/-- `HTTPTask.Execute` (http_task.go lines 35-176).  The transport —
`http.NewRequest`, `Client.Do` and `io.ReadAll` — is abstracted as
`send`, receiving the upper-cased method, url, computed headers, body and
timeout; a transport failure is an `error` result.  The rest follows the
source: config validation, body interpolation, error statuses at ≥ 400,
and the `{status_code, headers, body}` success output. -/
def HTTPTask.Execute {T : Type} (E : TmplEngine T)
    (jsonUnmarshal : String → Option Value)
    (send : String → String → List (String × String) → String → Nat →
      Except String HTTPResponse)
    (ctx : ExecutionContext) (config : Config) : TaskResult :=
  match Config.getString config "method" with
  | none => ⟨"failed", Value.null, "missing or invalid \x27method\x27 in configuration"⟩
  | some method =>
    if method = "" then
      ⟨"failed", Value.null, "missing or invalid \x27method\x27 in configuration"⟩
    else
      match Config.getString config "url" with
      | none => ⟨"failed", Value.null, "missing or invalid \x27url\x27 in configuration"⟩
      | some url =>
        if url = "" then
          ⟨"failed", Value.null, "missing or invalid \x27url\x27 in configuration"⟩
        else
          match HTTPTask.effectiveBody E ctx config with
          | .error e => ⟨"failed", Value.null, "body interpolation failed: " ++ e⟩
          | .ok bodyStr =>
            match send (String.toUpper method) url
                (HTTPTask.requestHeaders config bodyStr) bodyStr
                (HTTPTask.configTimeout config) with
            | .error e => ⟨"failed", Value.null, "request execution failed: " ++ e⟩
            | .ok resp =>
              if resp.statusCode ≥ 400 then
                ⟨"failed", Value.null,
                  "HTTP " ++ toString resp.statusCode ++ ": " ++ resp.body⟩
              else
                ⟨"success",
                  Value.obj [("status_code", Value.int resp.statusCode),
                    ("headers", headersValue resp.headers),
                    ("body", HTTPTask.parseResponseBody jsonUnmarshal
                      (headerGet resp.headers "Content-Type") resp.body)],
                  ""⟩

/-- C7 (response shaping): once the request completed with response
`resp`, the result is determined by it — status ≥ 400 fails with exactly
`HTTP <code>: <body>`; otherwise the task succeeds with output
`{status_code, headers, body}` whose body is the decoded JSON exactly
when the response `Content-Type` contains `application/json` and the
decoder accepts the body, and the raw body string in every other case. -/
theorem http_response_shaping {T : Type} (E : TmplEngine T)
    (jsonUnmarshal : String → Option Value)
    (send : String → String → List (String × String) → String → Nat →
      Except String HTTPResponse)
    (ctx : ExecutionContext) (config : Config) (method url bodyStr : String)
    (resp : HTTPResponse)
    (hm : Config.getString config "method" = some method) (hm' : method ≠ "")
    (hu : Config.getString config "url" = some url) (hu' : url ≠ "")
    (hb : HTTPTask.effectiveBody E ctx config = .ok bodyStr)
    (hsend : send (String.toUpper method) url
        (HTTPTask.requestHeaders config bodyStr) bodyStr
        (HTTPTask.configTimeout config) = .ok resp) :
    (resp.statusCode ≥ 400 →
      HTTPTask.Execute E jsonUnmarshal send ctx config
        = ⟨"failed", Value.null,
            "HTTP " ++ toString resp.statusCode ++ ": " ++ resp.body⟩)
    ∧ (resp.statusCode < 400 →
      ∀ v, containsSubstr (headerGet resp.headers "Content-Type")
            "application/json" = true →
        jsonUnmarshal resp.body = some v →
        HTTPTask.Execute E jsonUnmarshal send ctx config
          = ⟨"success", Value.obj [("status_code", Value.int resp.statusCode),
              ("headers", headersValue resp.headers), ("body", v)], ""⟩)
    ∧ (resp.statusCode < 400 →
      containsSubstr (headerGet resp.headers "Content-Type")
          "application/json" = true →
        jsonUnmarshal resp.body = none →
        HTTPTask.Execute E jsonUnmarshal send ctx config
          = ⟨"success", Value.obj [("status_code", Value.int resp.statusCode),
              ("headers", headersValue resp.headers),
              ("body", Value.str resp.body)], ""⟩)
    ∧ (resp.statusCode < 400 →
      containsSubstr (headerGet resp.headers "Content-Type")
          "application/json" = false →
        HTTPTask.Execute E jsonUnmarshal send ctx config
          = ⟨"success", Value.obj [("status_code", Value.int resp.statusCode),
              ("headers", headersValue resp.headers),
              ("body", Value.str resp.body)], ""⟩) := by
  refine ⟨fun hge => ?_, fun hlt v hct hj => ?_, fun hlt hct hj => ?_, fun hlt hct => ?_⟩
  · simp [HTTPTask.Execute, hm, hm', hu, hu', hb, hsend, hge]
  · have hge : ¬ resp.statusCode ≥ 400 := by omega
    simp [HTTPTask.Execute, HTTPTask.parseResponseBody, hm, hm', hu, hu', hb, hsend,
      hge, hct, hj]
  · have hge : ¬ resp.statusCode ≥ 400 := by omega
    simp [HTTPTask.Execute, HTTPTask.parseResponseBody, hm, hm', hu, hu', hb, hsend,
      hge, hct, hj]
  · have hge : ¬ resp.statusCode ≥ 400 := by omega
    simp [HTTPTask.Execute, HTTPTask.parseResponseBody, hm, hm', hu, hu', hb, hsend,
      hge, hct]

/-- A transport returning a fixed 200 JSON response. -/
def respOK : HTTPResponse :=
  ⟨200, [("Content-Type", "application/json")], "[1]"⟩

/-- A transport that always completes with `respOK`. -/
def sendOK : String → String → List (String × String) → String → Nat →
    Except String HTTPResponse :=
  fun _ _ _ _ _ => Except.ok respOK

/-- A decoder accepting exactly the body `[1]`. -/
def parseOneJson : String → Option Value :=
  fun s => if s = "[1]" then some (Value.list [Value.int 1]) else none

/-- A minimal HTTP config: method and url only. -/
def cfgHTTP : Config :=
  [("method", Value.str "get"), ("url", Value.str "http://example.test")]

/-- Witness for C7 at a concrete 200 JSON response. -/
theorem http_response_shaping_witness :
    (respOK.statusCode ≥ 400 →
      HTTPTask.Execute idTmplEngine parseOneJson sendOK [] cfgHTTP
        = ⟨"failed", Value.null,
            "HTTP " ++ toString respOK.statusCode ++ ": " ++ respOK.body⟩)
    ∧ (respOK.statusCode < 400 →
      ∀ v, containsSubstr (headerGet respOK.headers "Content-Type")
            "application/json" = true →
        parseOneJson respOK.body = some v →
        HTTPTask.Execute idTmplEngine parseOneJson sendOK [] cfgHTTP
          = ⟨"success", Value.obj [("status_code", Value.int respOK.statusCode),
              ("headers", headersValue respOK.headers), ("body", v)], ""⟩)
    ∧ (respOK.statusCode < 400 →
      containsSubstr (headerGet respOK.headers "Content-Type")
          "application/json" = true →
        parseOneJson respOK.body = none →
        HTTPTask.Execute idTmplEngine parseOneJson sendOK [] cfgHTTP
          = ⟨"success", Value.obj [("status_code", Value.int respOK.statusCode),
              ("headers", headersValue respOK.headers),
              ("body", Value.str respOK.body)], ""⟩)
    ∧ (respOK.statusCode < 400 →
      containsSubstr (headerGet respOK.headers "Content-Type")
          "application/json" = false →
        HTTPTask.Execute idTmplEngine parseOneJson sendOK [] cfgHTTP
          = ⟨"success", Value.obj [("status_code", Value.int respOK.statusCode),
              ("headers", headersValue respOK.headers),
              ("body", Value.str respOK.body)], ""⟩) :=
  http_response_shaping idTmplEngine parseOneJson sendOK [] cfgHTTP
    "get" "http://example.test" "" respOK rfl (by decide) rfl (by decide) rfl rfl

/-- C9 (implicit; body templating registers no helper functions): the
HTTP executor parses its body template with an empty `FuncMap`
(`interpolateBody`, http_task.go line 182) while the transformer parses
with `createTemplateFuncMap`; hence any template text that the engine
rejects without the helpers but accepts (and renders) with them makes the
HTTP executor fail with a `body interpolation failed:`-prefixed error on
the very config whose template the transformer executes successfully. -/
theorem http_body_template_no_helpers {T : Type} (E : TmplEngine T)
    (jsonUnmarshal : String → Option Value)
    (send : String → String → List (String × String) → String → Nat →
      Except String HTTPResponse)
    (ctx : ExecutionContext) (hcfg tcfg : Config)
    (method url b e R : String) (tmpl : T)
    (hm : Config.getString hcfg "method" = some method) (hm' : method ≠ "")
    (hu : Config.getString hcfg "url" = some url) (hu' : url ≠ "")
    (hb : HTTPTask.configBody hcfg = b) (hb' : b ≠ "")
    (hparseEmpty : E.parse [] b = .error e)
    (hparseFuncs : E.parse createTemplateFuncMap b = .ok tmpl)
    (ht : Config.getString tcfg "template" = some b)
    (hexec : E.exec tmpl (TransformTask.inputData ctx tcfg) = .ok R) :
    HTTPTask.Execute E jsonUnmarshal send ctx hcfg
      = ⟨"failed", Value.null,
          "body interpolation failed: failed to parse template: " ++ e⟩
    ∧ (TransformTask.Execute E jsonUnmarshal ctx tcfg).status = "success" := by
  refine ⟨?_, ?_⟩
  · simp [HTTPTask.Execute, hm, hm', hu, hu', HTTPTask.effectiveBody, hb, hb',
      HTTPTask.interpolateBody, hparseEmpty]
    rw [← String.append_assoc]
    rfl
  · by_cases hf : TransformTask.outputFormat tcfg = "json"
    · cases hjr : jsonUnmarshal R <;>
        simp [TransformTask.Execute, ht, hb', hparseFuncs, hexec, hf, hjr]
    · simp [TransformTask.Execute, ht, hb', hparseFuncs, hexec, hf]

/-- An engine that rejects the template `toUpper .name` exactly when the
`FuncMap` does not provide `toUpper`, and renders any accepted template
to its own text. -/
def helperCheckEngine : TmplEngine String :=
  ⟨fun fm s =>
      if s = "toUpper .name" then
        (if fm.contains "toUpper" then Except.ok s
          else Except.error "function toUpper not defined")
      else Except.ok s,
    fun s _ => Except.ok s⟩

/-- An HTTP config whose body template invokes the `toUpper` helper. -/
def cfgHTTPBody : Config :=
  [("method", Value.str "post"), ("url", Value.str "http://example.test"),
    ("body", Value.str "toUpper .name")]

/-- A transform config over the same template text. -/
def cfgTransformHelper : Config :=
  [("template", Value.str "toUpper .name")]

/-- Witness for C9: the helper-invoking template fails the HTTP executor
and succeeds in the transformer. -/
theorem http_body_template_no_helpers_witness :
    HTTPTask.Execute helperCheckEngine rejectAllJson sendOK [] cfgHTTPBody
      = ⟨"failed", Value.null,
          "body interpolation failed: failed to parse template: function toUpper not defined"⟩
    ∧ (TransformTask.Execute helperCheckEngine rejectAllJson []
        cfgTransformHelper).status = "success" :=
  http_body_template_no_helpers helperCheckEngine rejectAllJson sendOK []
    cfgHTTPBody cfgTransformHelper "post" "http://example.test" "toUpper .name"
    "function toUpper not defined" "toUpper .name" "toUpper .name"
    rfl (by decide) rfl (by decide) rfl (by decide) rfl rfl rfl rfl

end AutomationHub
